import Mathlib

/-!
Verification of the ctapipe event-reduction, reweighting and cut-evaluation pipeline.

The development shallowly embeds the relevant parts of
`ctapipe/irf/preprocessing.py` (`EventPreprocessor`, `EventLoader`),
`ctapipe/tools/make_irf.py` (`IrfTool.calculate_selections`) and
`ctapipe/tools/train_energy_regressor.py` (`TrainEnergyRegressor._read_table`).

Conventions of the embedding:
* event tables are lists of records; vectorized numpy/astropy column operations
  (which act elementwise) become `List.map` / `List.filter` of per-row functions;
* physical quantities are exact rationals (`ℚ`); the float comparison
  `std(xs) > 1e-3` is embedded as `variance(xs) > (1e-3)^2`, which is equivalent
  for the exact (non-negative) square root;
* code that raises becomes `Except`;
* external collaborators (astropy coordinate transforms, pyirf formulas, the
  numpy random generator) appear as explicit function parameters or as small
  definitions modelled on their documented behaviour, marked as such below.
-/

/-! ## Chunked iteration

`TableLoader.read_*_chunked(chunk_size)` yields successive slices of the
underlying table, in source order.  `chunkList c l` is the list of those
slices.  It is defined with an explicit fuel argument (structural recursion)
so that it evaluates inside the kernel. -/

def chunkListAux (c : Nat) : Nat → List α → List (List α)
  | 0, _ => []
  | fuel + 1, l => if l.isEmpty then [] else l.take c :: chunkListAux c fuel (l.drop c)

def chunkList (c : Nat) (l : List α) : List (List α) :=
  chunkListAux c l.length l

/-! ## Data model of the IRF preprocessing pipeline -/

/-- Value of `CoordinateFrameType.ALTAZ.value` (ctapipe.containers).  The code
only compares the `subarray_pointing_frame` column against this constant, so
the concrete number is irrelevant. -/
def altazFrameValue : Nat := 0

/-- One row of the DL2 input table, with the columns the pipeline reads.  The
fields use the canonical (post-rename) names; `normalise_column_names` checks
name presence on the separate column-name list of the table and renames, it
does not change any value. -/
structure Event where
  obs_id : Nat
  event_id : Nat
  true_energy : ℚ
  true_az : ℚ
  true_alt : ℚ
  reco_energy : ℚ
  reco_az : ℚ
  reco_alt : ℚ
  gh_score : ℚ
  pointing_lat : ℚ
  pointing_lon : ℚ
  pointing_frame : Nat
deriving DecidableEq

/-- A row after `EventLoader.make_derived_columns`: the input row plus the
derived columns added by that function. -/
structure DEvent where
  ev : Event
  weight : ℚ
  theta : ℚ
  true_source_fov_offset : ℚ
  reco_source_fov_offset : ℚ
  reco_fov_lon : ℚ
  reco_fov_lat : ℚ
deriving DecidableEq

/-- A row of the reduced table: exactly the columns kept by
`EventPreprocessor.keep_nescessary_columns_only`. -/
structure Reduced where
  obs_id : Nat
  event_id : Nat
  true_energy : ℚ
  true_az : ℚ
  true_alt : ℚ
  reco_energy : ℚ
  reco_az : ℚ
  reco_alt : ℚ
  reco_fov_lat : ℚ
  reco_fov_lon : ℚ
  pointing_az : ℚ
  pointing_alt : ℚ
  theta : ℚ
  true_source_fov_offset : ℚ
  reco_source_fov_offset : ℚ
  gh_score : ℚ
  weight : ℚ
deriving DecidableEq

/-- Configuration traits of `EventPreprocessor` used by
`normalise_column_names`.  `optional_dl3_columns` is left at its default
(`False`), so the optional-column block is not modelled. -/
structure PreCfg where
  energy_reconstructor : String := "RandomForestRegressor"
  geometry_reconstructor : String := "HillasReconstructor"
  gammaness_classifier : String := "RandomForestClassifier"
  irf_pre_processing : Bool := true
deriving DecidableEq

/-- External collaborators used by `make_derived_columns`: the pyirf helpers
`calculate_theta` and `calculate_source_fov_offset` and the astropy
nominal-frame transform.  All of them are elementwise in the event row, which
is all the development relies on. -/
structure Externals where
  calcTheta : Event → ℚ
  sourceFovOffsetTrue : Event → ℚ
  sourceFovOffsetReco : Event → ℚ
  nominalFovLon : Event → ℚ
  nominalFovLat : Event → ℚ

/-- Errors raised inside the per-chunk preprocessing.
`keyError c` is the astropy `KeyError` from accessing a missing column `c`;
`notImplemented` is `NotImplementedError`; `schemaError c` is the
`ValueError` "Input files must conform to the ctapipe DL2 data model.
Required column c is missing." -/
inductive PreErr where
  | keyError (col : String)
  | notImplemented (msg : String)
  | schemaError (col : String)
deriving DecidableEq

def meanQ (xs : List ℚ) : ℚ := xs.sum / xs.length

/-- Population variance, `numpy.std(xs)**2` exactly.  For the empty list this
is `0/0 = 0` in `ℚ`; numpy gives `nan`, and both make the comparison
`std > 1e-3` false. -/
def varianceQ (xs : List ℚ) : ℚ :=
  ((xs.map (fun x => (x - meanQ xs) ^ 2)).sum) / xs.length

/-- The `keep_columns` list of `normalise_column_names` before the rename
columns are appended (IRF branch adds the truth columns, the DL3 branch the
time column). -/
def keepColumnsBase (cfg : PreCfg) : List String :=
  ["obs_id", "event_id"] ++
    (if cfg.irf_pre_processing then ["true_energy", "true_az", "true_alt"] else ["time"])

def renameFromList (cfg : PreCfg) : List String :=
  [cfg.energy_reconstructor ++ "_energy",
   cfg.geometry_reconstructor ++ "_az",
   cfg.geometry_reconstructor ++ "_alt",
   cfg.gammaness_classifier ++ "_prediction",
   "subarray_pointing_lat",
   "subarray_pointing_lon"]

def renameToList : List String :=
  ["reco_energy", "reco_az", "reco_alt", "gh_score", "pointing_alt", "pointing_az"]

/-- The full `keep_columns` list whose members the source checks one by one. -/
def requiredColumns (cfg : PreCfg) : List String :=
  keepColumnsBase cfg ++ renameFromList cfg

/-- `Table.rename_columns(rename_from, rename_to)` on a single column name. -/
def renameCol (cfg : PreCfg) (c : String) : String :=
  match ((renameFromList cfg).zip renameToList).lookup c with
  | some t => t
  | none => c

/-- The first required column missing from the table, if any (the source loop
raises on the first missing one). -/
def missingColumn (cfg : PreCfg) (cols : List String) : Option String :=
  (requiredColumns cfg).find? (fun c => decide (c ∉ cols))

/-- `EventPreprocessor.normalise_column_names`.  `cols` is the column-name set
of the chunk (`events.colnames`), `rows` its data.  Mirrors the source order:
the varying-pointing check (which accesses `subarray_pointing_lat`, hence a
`KeyError` when that column is absent), the AltAz frame check (accessing
`subarray_pointing_frame`), then the required-column loop, then the rename. -/
def normalise_column_names (cfg : PreCfg) (cols : List String) (rows : List Event) :
    Except PreErr (List String × List Event) :=
  if cfg.irf_pre_processing ∧ "subarray_pointing_lat" ∉ cols then
    .error (.keyError "subarray_pointing_lat")
  else if cfg.irf_pre_processing ∧ varianceQ (rows.map Event.pointing_lat) > 1 / 1000000 then
    .error (.notImplemented "No support for making irfs from varying pointings yet")
  else if "subarray_pointing_frame" ∉ cols then
    .error (.keyError "subarray_pointing_frame")
  else if rows.any (fun e => e.pointing_frame ≠ altazFrameValue) then
    .error (.notImplemented "At the moment only pointing in altaz is supported.")
  else
    match missingColumn cfg cols with
    | some c => .error (.schemaError c)
    | none => .ok (cols.map (renameCol cfg), rows)

/-- `EventLoader.make_derived_columns` on one row: sets the `weight`
placeholder to `1.0`, computes `theta`, the true/reco source fov offsets and
the nominal-frame fov coordinates (with the GADF sign flip on `fov_lon`). -/
def make_derived_columns (ext : Externals) (e : Event) : DEvent :=
  { ev := e
    weight := 1
    theta := ext.calcTheta e
    true_source_fov_offset := ext.sourceFovOffsetTrue e
    reco_source_fov_offset := ext.sourceFovOffsetReco e
    reco_fov_lon := -(ext.nominalFovLon e)
    reco_fov_lat := ext.nominalFovLat e }

/-- `EventPreprocessor.keep_nescessary_columns_only` on one row: project to
the persisted column set (the rename `subarray_pointing_lat → pointing_alt`,
`subarray_pointing_lon → pointing_az` reflected in the field names). -/
def keep_nescessary_columns_only (d : DEvent) : Reduced :=
  { obs_id := d.ev.obs_id
    event_id := d.ev.event_id
    true_energy := d.ev.true_energy
    true_az := d.ev.true_az
    true_alt := d.ev.true_alt
    reco_energy := d.ev.reco_energy
    reco_az := d.ev.reco_az
    reco_alt := d.ev.reco_alt
    reco_fov_lat := d.reco_fov_lat
    reco_fov_lon := d.reco_fov_lon
    pointing_az := d.ev.pointing_lon
    pointing_alt := d.ev.pointing_lat
    theta := d.theta
    true_source_fov_offset := d.true_source_fov_offset
    reco_source_fov_offset := d.reco_source_fov_offset
    gh_score := d.ev.gh_score
    weight := d.weight }

/-- Modelled from the spec: `EventQualitySelection.calculate_selection`
(ctapipe.irf.cuts, not among the sources).  Per the spec the quality-criteria
set is an ordered list of per-row boolean predicates, each a pure function of
the row columns, and the overall mask is the logical AND of the individual
criterion masks. -/
def qualityMask (criteria : List (DEvent → Bool)) (e : DEvent) : Bool :=
  criteria.all (fun crit => crit e)

/-- The purely rowwise part of the per-chunk work: derive, select, project. -/
def rowPipe (ext : Externals) (criteria : List (DEvent → Bool)) (l : List Event) :
    List Reduced :=
  (((l.map (make_derived_columns ext)).filter (qualityMask criteria)).map
    keep_nescessary_columns_only)

/-- The body of the chunk loop of `EventLoader.load_preselected_events`:
normalise, derive, select (`events[events["selected"]]`), project. -/
def processChunk (cfg : PreCfg) (ext : Externals) (criteria : List (DEvent → Bool))
    (cols : List String) (chunk : List Event) : Except PreErr (List Reduced) :=
  match normalise_column_names cfg cols chunk with
  | .error e => .error e
  | .ok (_, evs) =>
    let derived := evs.map (make_derived_columns ext)
    let selected := derived.filter (qualityMask criteria)
    .ok (selected.map keep_nescessary_columns_only)

def processChunks (cfg : PreCfg) (ext : Externals) (criteria : List (DEvent → Bool))
    (cols : List String) : List (List Event) → Except PreErr (List (List Reduced))
  | [] => .ok []
  | ch :: rest =>
    match processChunk cfg ext criteria cols ch with
    | .error e => .error e
    | .ok r =>
      match processChunks cfg ext criteria cols rest with
      | .error e => .error e
      | .ok rs => .ok (r :: rs)

/-- Column metadata (unit and description) as set up by
`EventPreprocessor.make_empty_table`. -/
structure ColInfo where
  unit : String
  descr : String
deriving DecidableEq

/-- A stacked table: data rows plus per-column metadata, the latter as an
association list in which an entry shadows every later entry with the same
key. -/
structure VTable where
  rows : List Reduced
  meta : List (String × ColInfo)
deriving DecidableEq

/-- `EventPreprocessor.make_empty_table`: the canonical empty-but-typed header
table fixing the reference schema (units and descriptions as in the source;
`obs_id` and `event_id` are dtype `np.uint64` and carry no unit). -/
def make_empty_table : VTable :=
  { rows := []
    meta :=
      [("obs_id", ⟨"", "Observation block ID"⟩),
       ("event_id", ⟨"", "Array event ID"⟩),
       ("true_energy", ⟨"TeV", "Simulated energy"⟩),
       ("true_az", ⟨"deg", "Simulated azimuth"⟩),
       ("true_alt", ⟨"deg", "Simulated altitude"⟩),
       ("reco_energy", ⟨"TeV", "Reconstructed energy"⟩),
       ("reco_az", ⟨"deg", "Reconstructed azimuth"⟩),
       ("reco_alt", ⟨"deg", "Reconstructed altitude"⟩),
       ("reco_fov_lat", ⟨"deg", "Reconstructed field of view lat"⟩),
       ("reco_fov_lon", ⟨"deg", "Reconstructed field of view lon"⟩),
       ("pointing_az", ⟨"deg", "Pointing azimuth"⟩),
       ("pointing_alt", ⟨"deg", "Pointing altitude"⟩),
       ("theta", ⟨"deg", "Reconstructed angular offset from source position"⟩),
       ("true_source_fov_offset", ⟨"deg", "Simulated angular offset from pointing direction"⟩),
       ("reco_source_fov_offset", ⟨"deg", "Reconstructed angular offset from pointing direction"⟩),
       ("gh_score", ⟨"", "prediction of the classifier, defined between [0,1], where values close to 1 mean that the positive class (e.g. gamma in gamma-ray analysis) is more likely"⟩),
       ("weight", ⟨"", "Event weight"⟩)] }

/-- `astropy.table.vstack(bits, join_type="exact", metadata_conflicts="silent")`
(external collaborator): rows are concatenated in list order; with exact join
all tables share one column set and with silent conflict resolution the value
from the later table wins.  The merged metadata is represented by prepending
later tables' entries, so that `List.lookup` sees the later value first. -/
def vstackT (ts : List VTable) : VTable :=
  { rows := (ts.map VTable.rows).flatten
    meta := ts.foldl (fun acc t => t.meta ++ acc) [] }

/-- `EventLoader.load_preselected_events`: read the table in chunks of
`chunk_size`, run the per-chunk pipeline, collect the retained rows, with the
canonical header table first in `bits` and appended once more after all
chunks (putting it last ensures the correct metadata is used), then vstack.
`chunkMeta` is the column metadata carried by the per-chunk data tables. -/
def load_preselected_events (cfg : PreCfg) (ext : Externals)
    (criteria : List (DEvent → Bool)) (chunkMeta : List (String × ColInfo))
    (chunk_size : Nat) (cols : List String) (rows : List Event) :
    Except PreErr VTable :=
  let header := make_empty_table
  match processChunks cfg ext criteria cols (chunkList chunk_size rows) with
  | .error e => .error e
  | .ok rss =>
    let bits := header :: (rss.map (fun rs => VTable.mk rs chunkMeta) ++ [header])
    .ok (vstackT bits)

def isOkE : Except ε α → Bool
  | .ok _ => true
  | .error _ => false

/-! ## Event weighting (`EventLoader.make_event_weights`) -/

/-- The two pyirf flux-unit equivalence classes the source distinguishes
(`POINT_SOURCE_FLUX_UNIT` and `DIFFUSE_FLUX_UNIT`); `is_equivalent` becomes
equality of the class. -/
inductive FluxUnit where
  | pointSource
  | diffuse
deriving DecidableEq

/-- A spectral model: the unit class of its normalization and the
differential flux as a function of true energy. -/
structure Spectrum where
  unit : FluxUnit
  flux : ℚ → ℚ

/-- The simulated spectrum together with its `integrate_cone` method
(external pyirf `PowerLaw.integrate_cone`), which integrates a diffuse
spectrum over the cone between two fov offsets. -/
structure SimSpectrum where
  spec : Spectrum
  integrate_cone : ℚ → ℚ → Spectrum

/-- The part of the `EventLoader` state that `make_event_weights` reads. -/
structure Loader where
  target_spectrum : Option Spectrum

inductive WErr where
  | noSpectrum
  | configurationError (msg : String)
deriving DecidableEq

def fovBinsMsg : String :=
  "gamma_target_spectrum is point-like, but no fov offset bins for the integration of the simulated diffuse spectrum were given."

/-- pyirf `calculate_event_weights` (external): the ratio of target to
simulated differential flux at the event's true energy. -/
def calculate_event_weights (target simulated : Spectrum) (e : ℚ) : ℚ :=
  target.flux e / simulated.flux e

def setWeight (e : Reduced) (w : ℚ) : Reduced := { e with weight := w }

/-- One iteration of the fov-offset-bin loop for one event: the half-open bin
mask `offset >= low AND offset < high`, and the weight assignment under it. -/
def applyBinPair (tgt : Spectrum) (sim : SimSpectrum) (low high : ℚ) (e : Reduced) :
    Reduced :=
  if low ≤ e.true_source_fov_offset ∧ e.true_source_fov_offset < high then
    setWeight e (calculate_event_weights tgt (sim.integrate_cone low high) e.true_energy)
  else e

/-- `zip(fov_offset_bins[:-1], fov_offset_bins[1:])`. -/
def consecutivePairs (bins : List ℚ) : List (ℚ × ℚ) := bins.zip bins.tail

/-- The bin loop as seen by a single event (the vectorized loop applies
`applyBinPair` for each consecutive bin pair in order). -/
def binFoldE (tgt : Spectrum) (sim : SimSpectrum) (pairs : List (ℚ × ℚ)) (e : Reduced) :
    Reduced :=
  pairs.foldl (fun e p => applyBinPair tgt sim p.1 p.2 e) e

/-- The body of `EventLoader.make_event_weights` once the target spectrum is known to
be configured: the point-like-target/diffuse-simulation branch (only taken for the
gamma population) loops over consecutive fov-offset bin pairs, reweighting the events
inside each half-open bin against the cone-integrated simulated spectrum; every other
combination uses one global flux ratio. -/
def make_event_weights_with (tgt : Spectrum) (events : List Reduced)
    (spectrum : SimSpectrum) (kind : String) (fov_offset_bins : Option (List ℚ)) :
    Except WErr (List Reduced) :=
  if kind = "gammas" ∧ tgt.unit = FluxUnit.pointSource
      ∧ spectrum.spec.unit = FluxUnit.diffuse then
    match fov_offset_bins with
    | none => .error (.configurationError fovBinsMsg)
    | some bins =>
      .ok ((consecutivePairs bins).foldl
        (fun evs p => evs.map (applyBinPair tgt spectrum p.1 p.2)) events)
  else
    .ok (events.map (fun e =>
      setWeight e (calculate_event_weights tgt spectrum.spec e.true_energy)))

/-- `EventLoader.make_event_weights`: raises when no target spectrum was configured at
construction, otherwise dispatches to `make_event_weights_with`. -/
def make_event_weights (ldr : Loader) (events : List Reduced) (spectrum : SimSpectrum)
    (kind : String) (fov_offset_bins : Option (List ℚ)) : Except WErr (List Reduced) :=
  match ldr.target_spectrum with
  | none => .error .noSpectrum
  | some tgt => make_event_weights_with tgt events spectrum kind fov_offset_bins

/-! ## Binned-cut evaluation (`IrfTool.calculate_selections`) -/

/-- One row of a pyirf cut table: bin edges and the threshold for that bin. -/
structure CutBin where
  low : ℚ
  high : ℚ
  cut : ℚ
deriving DecidableEq

/-- pyirf `evaluate_binned_cut` on one row (external): assign the row to its
bin by the binning value and compare against that bin's threshold with the
given operator; rows outside all bins fail closed. -/
def binned_cut_row (cuts : List CutBin) (op : ℚ → ℚ → Bool) (value energy : ℚ) : Bool :=
  match cuts.find? (fun b => decide (b.low ≤ energy) && decide (energy < b.high)) with
  | some b => op value b.cut
  | none => false

def evaluate_binned_cut (values energies : List ℚ) (cuts : List CutBin)
    (op : ℚ → ℚ → Bool) : List Bool :=
  (values.zip energies).map (fun p => binned_cut_row cuts op p.1 p.2)

def geOp : ℚ → ℚ → Bool := fun a b => decide (a ≥ b)

def leOp : ℚ → ℚ → Bool := fun a b => decide (a ≤ b)

/-- The event table of `calculate_selections`: the input columns and the three
boolean columns the method fills in (empty before the call). -/
structure SelTable where
  gh_score : List ℚ
  reco_energy : List ℚ
  theta : List ℚ
  selected_gh : List Bool
  selected_theta : List Bool
  selected : List Bool
deriving DecidableEq

/-- `IrfTool.calculate_selections` on one table (the source applies the same
statements to the signal table and, when backgrounds are enabled, to the
background table): `selected_gh` from the G/H cut with `operator.ge`; in
point-like mode (`full_enclosure = False`) also `selected_theta` from the
theta cut with `operator.le` and `selected = selected_theta & selected_gh`;
in full-enclosure mode `selected = selected_gh`. -/
def calculate_selections (full_enclosure : Bool) (gh_cuts theta_cuts : List CutBin)
    (t : SelTable) : SelTable :=
  let t1 := { t with selected_gh := evaluate_binned_cut t.gh_score t.reco_energy gh_cuts geOp }
  if ¬ full_enclosure then
    let t2 := { t1 with
      selected_theta := evaluate_binned_cut t1.theta t1.reco_energy theta_cuts leOp }
    { t2 with selected := List.zipWith (fun a b => a && b) t2.selected_theta t2.selected_gh }
  else
    { t1 with selected := t1.selected_gh }

/-! ## The training-table reduction (`TrainEnergyRegressor._read_table`) -/

/-- The outcome of `_read_table`: the table plus the logging counters and the
two warnings it can emit (observability signals in the source; kept here so
the second-pass validation drop is visible). -/
structure ReadResult (β : Type) where
  table : List β
  n_events_in_file : Nat
  n_valid_events_in_file : Nat
  warned_invalid : Bool
  warned_sample : Bool
deriving DecidableEq

inductive TrainErr where
  | tooFewEvents (msg : String)
deriving DecidableEq

/-- The chunk loop of `_read_table`: per chunk apply the quality-query mask,
then the feature generator and the projection to `features + [target]`
(`featgen`, elementwise), collecting the chunk tables and the two counters
`n_events_in_file` and `n_valid_events_in_file`. -/
def readLoop (quality : α → Bool) (featgen : α → β) :
    List (List α) → List β × Nat × Nat
  | [] => ([], 0, 0)
  | ch :: rest =>
    let masked := ch.filter quality
    let tchunk := masked.map featgen
    let r := readLoop quality featgen rest
    (tchunk ++ r.1, ch.length + r.2.1, masked.length + r.2.2)

/-- The concatenated reduced table (`table = vstack(table)` in the source). -/
def reducedTable (quality : α → Bool) (featgen : α → β) (chunk_size : Nat)
    (rows : List α) : List β :=
  (readLoop quality featgen (chunkList chunk_size rows)).1

/-- The table after the `check_valid_rows` second pass: rows with non-finite
feature or target values are dropped (the source only reassigns the table
when some row is invalid; the value is the same either way). -/
def predictableTable (quality : α → Bool) (valid : β → Bool) (featgen : α → β)
    (chunk_size : Nat) (rows : List α) : List β :=
  let t := reducedTable quality featgen chunk_size rows
  if t.all valid then t else t.filter valid

/-- numpy fancy indexing `table[idx]` for in-range index lists. -/
def selectRows (t : List β) (idx : List Nat) : List β :=
  idx.filterMap (fun i => t.get? i)

/-- `TrainEnergyRegressor._read_table`.  `quality` is the per-row
quality-query mask, `valid` the `check_valid_rows` predicate (external,
ctapipe.reco.preprocessing), `featgen` the feature generation plus projection
to the feature and target columns, `choice n k` the draw of `k` indices among
`n` without replacement from the generator seeded in `setup`
(`np.random.default_rng(random_seed)`, external). -/
def read_table (quality : α → Bool) (valid : β → Bool) (featgen : α → β)
    (choice : Nat → Nat → List Nat) (telescope_type : String)
    (n_events : Option Nat) (chunk_size : Nat) (rows : List α) :
    Except TrainErr (ReadResult β) :=
  if (reducedTable quality featgen chunk_size rows).length = 0 then
    .error (.tooFewEvents
      ("No events after quality query for telescope type " ++ telescope_type))
  else
    match n_events with
    | none =>
      .ok ⟨predictableTable quality valid featgen chunk_size rows,
        (readLoop quality featgen (chunkList chunk_size rows)).2.1,
        (readLoop quality featgen (chunkList chunk_size rows)).2.2,
        !((reducedTable quality featgen chunk_size rows).all valid), false⟩
    | some n =>
      if n > (predictableTable quality valid featgen chunk_size rows).length then
        .ok ⟨predictableTable quality valid featgen chunk_size rows,
          (readLoop quality featgen (chunkList chunk_size rows)).2.1,
          (readLoop quality featgen (chunkList chunk_size rows)).2.2,
          !((reducedTable quality featgen chunk_size rows).all valid), true⟩
      else
        .ok ⟨selectRows (predictableTable quality valid featgen chunk_size rows)
            (List.insertionSort (fun a b => a ≤ b)
              (choice (predictableTable quality valid featgen chunk_size rows).length n)),
          (readLoop quality featgen (chunkList chunk_size rows)).2.1,
          (readLoop quality featgen (chunkList chunk_size rows)).2.2,
          !((reducedTable quality featgen chunk_size rows).all valid), false⟩

/-! ## Concrete inputs for the closed instances below -/

def cfg0 : PreCfg := {}

def ext0 : Externals :=
  { calcTheta := fun e => e.reco_alt - e.true_alt
    sourceFovOffsetTrue := fun e => e.true_alt - e.pointing_lat
    sourceFovOffsetReco := fun e => e.reco_alt - e.pointing_lat
    nominalFovLon := fun e => e.reco_az
    nominalFovLat := fun e => e.reco_alt }

def crit0 : List (DEvent → Bool) := [fun d => decide (0 ≤ d.ev.gh_score)]

def cols0 : List String :=
  ["obs_id", "event_id", "true_energy", "true_az", "true_alt",
   "RandomForestRegressor_energy", "HillasReconstructor_az", "HillasReconstructor_alt",
   "RandomForestClassifier_prediction", "subarray_pointing_lat", "subarray_pointing_lon",
   "subarray_pointing_frame"]

/-- `cols0` without `obs_id`: a chunk violating the required-column schema. -/
def colsNoObsId : List String :=
  ["event_id", "true_energy", "true_az", "true_alt",
   "RandomForestRegressor_energy", "HillasReconstructor_az", "HillasReconstructor_alt",
   "RandomForestClassifier_prediction", "subarray_pointing_lat", "subarray_pointing_lon",
   "subarray_pointing_frame"]

def evA : Event :=
  { obs_id := 1, event_id := 1, true_energy := 1, true_az := 0, true_alt := 0
    reco_energy := 1, reco_az := 0, reco_alt := 0, gh_score := 1/2
    pointing_lat := 0, pointing_lon := 0, pointing_frame := altazFrameValue }

def evB : Event := { evA with event_id := 2 }

/-- Same pointing frame, but a pointing latitude 10 away from `evA`. -/
def evVary : Event := { evA with event_id := 3, pointing_lat := 10 }

def rowsConst : List Event := [evA, evB]

/-- A table whose pointing is constant inside chunks of size one but varies
across them. -/
def rowsVary : List Event := [evA, evVary]

def tgtPoint : Spectrum := { unit := .pointSource, flux := fun e => 6 * e }

def simDiffuse : SimSpectrum :=
  { spec := { unit := .diffuse, flux := fun e => 3 * e }
    integrate_cone := fun low high => { unit := .pointSource, flux := fun e => (high - low) * e } }

def ldr0 : Loader := { target_spectrum := some tgtPoint }

def redEx : Reduced :=
  { obs_id := 1, event_id := 1, true_energy := 2, true_az := 0, true_alt := 0
    reco_energy := 2, reco_az := 0, reco_alt := 0, reco_fov_lat := 0, reco_fov_lon := 0
    pointing_az := 0, pointing_alt := 0, theta := 0, true_source_fov_offset := 1/2
    reco_source_fov_offset := 0, gh_score := 1, weight := 1 }

/-- An event sitting exactly on the last fov-offset bin edge of `[0, 1, 2]`. -/
def redEdge : Reduced := { redEx with true_source_fov_offset := 2 }

def ghCuts0 : List CutBin := [⟨0, 10, 1/2⟩]

def thetaCuts0 : List CutBin := [⟨0, 10, 1/4⟩]

def selT0 : SelTable :=
  { gh_score := [3/4, 1/4], reco_energy := [1, 2], theta := [1/10, 1]
    selected_gh := [], selected_theta := [], selected := [] }

def qual0 : Nat → Bool := fun n => decide (n % 2 = 0)

def valid0 : Nat → Bool := fun n => decide (n ≠ 4)

def fg0 : Nat → Nat := fun n => n

def choice0 : Nat → Nat → List Nat := fun _ _ => [2, 0]

def trainRows0 : List Nat := [0, 1, 2, 3, 4, 6]

def trainRowsOdd : List Nat := [1, 3, 5]

deriving instance DecidableEq for Except

/-! ## Helper lemmas -/

theorem chunkListAux_flatten {α : Type} (c : Nat) (hc : 0 < c) :
    ∀ (fuel : Nat) (l : List α), l.length ≤ fuel → (chunkListAux c fuel l).flatten = l := by
  intro fuel
  induction fuel with
  | zero =>
    intro l hl
    have hnil : l = [] := List.length_eq_zero.mp (Nat.le_zero.mp hl)
    subst hnil
    rfl
  | succ n ih =>
    intro l hl
    by_cases h : l.isEmpty
    · have hnil : l = [] := by
        cases l with
        | nil => rfl
        | cons a t => simp [List.isEmpty] at h
      subst hnil
      rfl
    · have hne : l ≠ [] := by
        intro hh
        subst hh
        simp at h
      have hpos : 1 ≤ l.length := List.length_pos.mpr hne
      have hlen : (l.drop c).length ≤ n := by
        rw [List.length_drop]
        omega
      show (if l.isEmpty then [] else l.take c :: chunkListAux c n (l.drop c)).flatten = l
      rw [if_neg (by simpa using h)]
      rw [List.flatten_cons, ih (l.drop c) hlen]
      exact List.take_append_drop c l

theorem chunkList_flatten {α : Type} {c : Nat} (hc : 0 < c) (l : List α) :
    (chunkList c l).flatten = l :=
  chunkListAux_flatten c hc l.length l le_rfl

theorem rowPipe_append (ext : Externals) (criteria : List (DEvent → Bool))
    (a b : List Event) :
    rowPipe ext criteria (a ++ b) = rowPipe ext criteria a ++ rowPipe ext criteria b := by
  simp [rowPipe, List.filter_append]

theorem rowPipe_flatten (ext : Externals) (criteria : List (DEvent → Bool))
    (ls : List (List Event)) :
    (ls.map (rowPipe ext criteria)).flatten = rowPipe ext criteria ls.flatten := by
  induction ls with
  | nil => simp [rowPipe]
  | cons a t ih => simp [rowPipe_append, ih]

theorem normalise_ok {cfg : PreCfg} {cols : List String} {rows : List Event}
    {p : List String × List Event}
    (h : normalise_column_names cfg cols rows = .ok p) :
    p = (cols.map (renameCol cfg), rows) := by
  unfold normalise_column_names at h
  split at h
  · exact absurd h (by simp)
  · split at h
    · exact absurd h (by simp)
    · split at h
      · exact absurd h (by simp)
      · split at h
        · exact absurd h (by simp)
        · split at h
          · exact absurd h (by simp)
          · cases h
            rfl

theorem processChunk_ok {cfg : PreCfg} {ext : Externals}
    {criteria : List (DEvent → Bool)} {cols : List String} {ch : List Event}
    {rs : List Reduced}
    (h : processChunk cfg ext criteria cols ch = .ok rs) :
    rs = rowPipe ext criteria ch := by
  unfold processChunk at h
  cases hn : normalise_column_names cfg cols ch with
  | error e => rw [hn] at h; exact absurd h (by simp)
  | ok p =>
    rw [hn] at h
    have hp := normalise_ok hn
    subst hp
    cases h
    rfl

theorem processChunks_ok {cfg : PreCfg} {ext : Externals}
    {criteria : List (DEvent → Bool)} {cols : List String} :
    ∀ {chs : List (List Event)} {rss : List (List Reduced)},
      processChunks cfg ext criteria cols chs = .ok rss →
      rss = chs.map (rowPipe ext criteria) := by
  intro chs
  induction chs with
  | nil => intro rss h; cases h; rfl
  | cons ch t ih =>
    intro rss h
    unfold processChunks at h
    cases hc : processChunk cfg ext criteria cols ch with
    | error e => rw [hc] at h; exact absurd h (by simp)
    | ok r =>
      rw [hc] at h
      cases ht : processChunks cfg ext criteria cols t with
      | error e => rw [ht] at h; exact absurd h (by simp)
      | ok rs =>
        rw [ht] at h
        cases h
        rw [processChunk_ok hc, ih ht]
        rfl

theorem load_ok_rows {cfg : PreCfg} {ext : Externals}
    {criteria : List (DEvent → Bool)} {chunkMeta : List (String × ColInfo)}
    {c : Nat} {cols : List String} {rows : List Event} {t : VTable}
    (hc : 0 < c)
    (h : load_preselected_events cfg ext criteria chunkMeta c cols rows = .ok t) :
    t.rows = rowPipe ext criteria rows := by
  unfold load_preselected_events at h
  cases hp : processChunks cfg ext criteria cols (chunkList c rows) with
  | error e => rw [hp] at h; exact absurd h (by simp)
  | ok rss =>
    rw [hp] at h
    have hrss := processChunks_ok hp
    subst hrss
    cases h
    show (vstackT _).rows = _
    rw [vstackT]
    simp only [List.map_cons, List.map_append, List.map_map, List.map_nil,
      List.flatten_cons, List.flatten_append, List.flatten_nil, List.append_nil]
    rw [show make_empty_table.rows = [] from rfl]
    simp only [List.nil_append, List.append_nil]
    rw [show (VTable.rows ∘ (fun rs => VTable.mk rs chunkMeta) ∘ rowPipe ext criteria)
        = rowPipe ext criteria from rfl]
    rw [rowPipe_flatten, chunkList_flatten hc]

theorem lookup_append_left {k : String} {v : ColInfo}
    {l₁ l₂ : List (String × ColInfo)} (h : l₁.lookup k = some v) :
    (l₁ ++ l₂).lookup k = some v := by
  induction l₁ with
  | nil => simp [List.lookup] at h
  | cons p t ih =>
    rw [List.cons_append, List.lookup]
    rw [List.lookup] at h
    split at h
    · exact h
    · exact ih h

theorem load_ok_meta {cfg : PreCfg} {ext : Externals}
    {criteria : List (DEvent → Bool)} {chunkMeta : List (String × ColInfo)}
    {c : Nat} {cols : List String} {rows : List Event} {t : VTable}
    (h : load_preselected_events cfg ext criteria chunkMeta c cols rows = .ok t) :
    ∃ acc, t.meta = make_empty_table.meta ++ acc := by
  unfold load_preselected_events at h
  cases hp : processChunks cfg ext criteria cols (chunkList c rows) with
  | error e => rw [hp] at h; exact absurd h (by simp)
  | ok rss =>
    rw [hp] at h
    cases h
    show ∃ acc, (vstackT _).meta = _
    rw [vstackT]
    rw [List.foldl_cons, List.foldl_append]
    exact ⟨_, rfl⟩

/-- C1 (amended): for a fixed input table, quality-criteria set and any chunk sizes
`c1, c2 > 0` at which the chunked reduction succeeds, it retains exactly the same rows
with the same derived-column values at both chunk sizes, and both results equal the
single-unit pass `rowPipe` (normalize, derive, filter, project over the whole table at
once). -/
theorem chunked_reduction_chunk_size_invariant (cfg : PreCfg) (ext : Externals)
    (criteria : List (DEvent → Bool)) (chunkMeta : List (String × ColInfo))
    (cols : List String) (rows : List Event) (c1 c2 : Nat)
    (h1 : 0 < c1) (h2 : 0 < c2)
    (hk1 : isOkE (load_preselected_events cfg ext criteria chunkMeta c1 cols rows) = true)
    (hk2 : isOkE (load_preselected_events cfg ext criteria chunkMeta c2 cols rows) = true) :
    (load_preselected_events cfg ext criteria chunkMeta c1 cols rows).map VTable.rows
      = .ok (rowPipe ext criteria rows) ∧
    (load_preselected_events cfg ext criteria chunkMeta c2 cols rows).map VTable.rows
      = .ok (rowPipe ext criteria rows) := by
  constructor
  · cases hl : load_preselected_events cfg ext criteria chunkMeta c1 cols rows with
    | error e => rw [hl] at hk1; simp [isOkE] at hk1
    | ok t =>
      have hr := load_ok_rows h1 hl
      simp [Except.map, hr]
  · cases hl : load_preselected_events cfg ext criteria chunkMeta c2 cols rows with
    | error e => rw [hl] at hk2; simp [isOkE] at hk2
    | ok t =>
      have hr := load_ok_rows h2 hl
      simp [Except.map, hr]

/-- C1 witness: on the two-row constant-pointing table both chunk size 1 and chunk
size 2 succeed and produce the single-unit result. -/
theorem chunked_reduction_chunk_size_invariant_witness :
    (load_preselected_events cfg0 ext0 crit0 [] 1 cols0 rowsConst).map VTable.rows
      = .ok (rowPipe ext0 crit0 rowsConst) ∧
    (load_preselected_events cfg0 ext0 crit0 [] 2 cols0 rowsConst).map VTable.rows
      = .ok (rowPipe ext0 crit0 rowsConst) :=
  chunked_reduction_chunk_size_invariant cfg0 ext0 crit0 [] cols0 rowsConst 1 2
    (by decide) (by decide) (by with_unfolding_all decide) (by with_unfolding_all decide)

/-- C1 counterexample: `rowsVary` has constant pointing inside every chunk of size one
but varying pointing over the whole table, so the reduction succeeds at chunk size 1
and aborts with the varying-pointing `NotImplementedError` at chunk size 2; the two
chunk sizes do not yield the same retained rows. -/
theorem chunked_reduction_chunk_size_dependence :
    (load_preselected_events cfg0 ext0 crit0 [] 1 cols0 rowsVary).map VTable.rows
      ≠ (load_preselected_events cfg0 ext0 crit0 [] 2 cols0 rowsVary).map VTable.rows ∧
    load_preselected_events cfg0 ext0 crit0 [] 2 cols0 rowsVary
      = .error (.notImplemented "No support for making irfs from varying pointings yet") := by
  constructor
  · with_unfolding_all decide
  · with_unfolding_all decide

/-- C6: whenever the chunked load succeeds, the canonical empty-but-typed header table
appended after all chunks contributes zero rows, so the output rows are exactly the
per-chunk retained rows in chunk order, and every column's metadata resolves to the
header's canonical unit and description regardless of the metadata carried by the
per-chunk data tables. -/
theorem header_table_fixes_metadata (cfg : PreCfg) (ext : Externals)
    (criteria : List (DEvent → Bool)) (chunkMeta : List (String × ColInfo))
    (cols : List String) (rows : List Event) (c : Nat) (h1 : 0 < c)
    (hk : isOkE (load_preselected_events cfg ext criteria chunkMeta c cols rows) = true) :
    (load_preselected_events cfg ext criteria chunkMeta c cols rows).map VTable.rows
      = .ok (((chunkList c rows).map (rowPipe ext criteria)).flatten) ∧
    ∀ col info, make_empty_table.meta.lookup col = some info →
      (load_preselected_events cfg ext criteria chunkMeta c cols rows).map
        (fun t => t.meta.lookup col) = .ok (some info) := by
  cases hl : load_preselected_events cfg ext criteria chunkMeta c cols rows with
  | error e => rw [hl] at hk; simp [isOkE] at hk
  | ok t =>
    constructor
    · have hr := load_ok_rows h1 hl
      rw [rowPipe_flatten, chunkList_flatten h1]
      simp [Except.map, hr]
    · intro col info hcol
      obtain ⟨acc, hacc⟩ := load_ok_meta hl
      simp only [Except.map]
      rw [hacc, lookup_append_left hcol]

/-- C6 witness: loading the constant-pointing table with chunk tables whose `weight`
metadata is deliberately wrong still reports the canonical header metadata for
`weight`, since the trailing header wins the silent conflict resolution. -/
theorem header_table_fixes_metadata_witness :
    (load_preselected_events cfg0 ext0 crit0 [("weight", ⟨"TeV", "junk"⟩)] 2 cols0
        rowsConst).map (fun t => t.meta.lookup "weight") = .ok (some ⟨"", "Event weight"⟩) :=
  (header_table_fixes_metadata cfg0 ext0 crit0 [("weight", ⟨"TeV", "junk"⟩)] cols0
      rowsConst 2 (by decide) (by with_unfolding_all decide)).2
    "weight" ⟨"", "Event weight"⟩ (by decide)

theorem readLoop_table {α β : Type} (quality : α → Bool) (featgen : α → β) :
    ∀ chs : List (List α),
      (readLoop quality featgen chs).1
        = (chs.map (fun ch => (ch.filter quality).map featgen)).flatten := by
  intro chs
  induction chs with
  | nil => rfl
  | cons ch t ih => simp [readLoop, ih]

theorem readLoop_counts {α β : Type} (quality : α → Bool) (featgen : α → β) :
    ∀ chs : List (List α),
      (readLoop quality featgen chs).2.1 = (chs.map List.length).sum ∧
      (readLoop quality featgen chs).2.2
        = (chs.map (fun ch => (ch.filter quality).length)).sum := by
  intro chs
  induction chs with
  | nil => exact ⟨rfl, rfl⟩
  | cons ch t ih =>
    constructor
    · show ch.length + (readLoop quality featgen t).2.1 = _
      rw [ih.1, List.map_cons, List.sum_cons]
    · show (ch.filter quality).length + (readLoop quality featgen t).2.2 = _
      rw [ih.2, List.map_cons, List.sum_cons]

theorem selectRows_length {β : Type} {t : List β} :
    ∀ {idx : List Nat}, (∀ i ∈ idx, i < t.length) →
      (selectRows t idx).length = idx.length := by
  intro idx
  induction idx with
  | nil => intro _; rfl
  | cons i is ih =>
    intro h
    have hi : i < t.length := h i (List.mem_cons_self i is)
    simp only [selectRows, List.filterMap_cons, List.get?_eq_get hi]
    show (t.get ⟨i, hi⟩ :: selectRows t is).length = (i :: is).length
    rw [List.length_cons, List.length_cons,
      ih (fun j hj => h j (List.mem_cons_of_mem i hj))]

theorem selectRows_drop_sublist {β : Type} :
    ∀ (idx : List Nat) (t : List β) (k : Nat), idx.Pairwise (fun a b => a < b) →
      (∀ j ∈ idx, k ≤ j) → (selectRows t idx).Sublist (t.drop k) := by
  intro idx
  induction idx with
  | nil => intro t k _ _; exact List.nil_sublist _
  | cons i is ih =>
    intro t k hp hk
    have hlt : ∀ j ∈ is, i < j := (List.pairwise_cons.mp hp).1
    have hp2 : is.Pairwise (fun a b => a < b) := (List.pairwise_cons.mp hp).2
    have hki : k ≤ i := hk i (List.mem_cons_self i is)
    cases hget : t.get? i with
    | none =>
      have hge : t.length ≤ i := List.get?_eq_none.mp hget
      have hstep : selectRows t (i :: is) = selectRows t is := by
        simp only [selectRows, List.filterMap_cons, hget]
      have hnil : selectRows t is = [] := by
        refine List.filterMap_eq_nil.mpr ?_
        intro j hj
        exact List.get?_eq_none.mpr (le_trans hge (le_of_lt (hlt j hj)))
      rw [hstep, hnil]
      exact List.nil_sublist _
    | some x =>
      have hi : i < t.length := by
        by_contra hh
        rw [List.get?_eq_none.mpr (Nat.le_of_not_lt hh)] at hget
        cases hget
      have hstep : selectRows t (i :: is) = x :: selectRows t is := by
        simp only [selectRows, List.filterMap_cons, hget]
      have hsub : (selectRows t is).Sublist (t.drop (i + 1)) :=
        ih t (i + 1) hp2 (fun j hj => hlt j hj)
      have hx : t.get ⟨i, hi⟩ = x := by
        have hg := List.get?_eq_get hi
        rw [hg] at hget
        exact Option.some_inj.mp hget
      have hdrop : t.drop i = x :: t.drop (i + 1) := by
        rw [List.drop_eq_get_cons hi, hx]
      have hchain : (x :: selectRows t is).Sublist (t.drop i) := by
        rw [hdrop]
        exact List.Sublist.cons₂ x hsub
      rw [hstep]
      refine List.Sublist.trans hchain ?_
      have hsplit : t.drop i = (t.drop k).drop (i - k) := by
        rw [List.drop_drop]
        congr 1
        omega
      rw [hsplit]
      exact List.drop_sublist _ _

theorem selectRows_sublist {β : Type} (idx : List Nat) (t : List β)
    (hp : idx.Pairwise (fun a b => a < b)) : (selectRows t idx).Sublist t := by
  have h := selectRows_drop_sublist idx t 0 hp (fun j _ => Nat.zero_le j)
  simpa using h

/-- C5: the chunked training-table reduction fails with `TooFewEvents`, whose message
names the telescope-type partition, exactly when zero rows survive the quality-criteria
filtering across all chunks; when at least one row survives, no error is raised. -/
theorem too_few_events_iff_empty {α β : Type} (quality : α → Bool) (valid : β → Bool)
    (featgen : α → β) (choice : Nat → Nat → List Nat) (telType : String)
    (n_events : Option Nat) (c : Nat) (rows : List α) :
    (read_table quality valid featgen choice telType n_events c rows
        = .error (.tooFewEvents
            ("No events after quality query for telescope type " ++ telType))
      ↔ reducedTable quality featgen c rows = []) ∧
    (reducedTable quality featgen c rows ≠ [] →
      ∃ res, read_table quality valid featgen choice telType n_events c rows = .ok res) := by
  by_cases ht : (reducedTable quality featgen c rows).length = 0
  · have hnil := List.length_eq_zero.mp ht
    rw [read_table.eq_def, if_pos ht]
    exact ⟨⟨fun _ => hnil, fun _ => rfl⟩, fun hne => absurd hnil hne⟩
  · have hne : reducedTable quality featgen c rows ≠ [] := by
      intro hh
      rw [hh] at ht
      exact ht rfl
    cases n_events with
    | none =>
      rw [read_table, if_neg ht]
      exact ⟨⟨fun h => absurd h (by simp), fun h => absurd h hne⟩, fun _ => ⟨_, rfl⟩⟩
    | some n =>
      rw [read_table, if_neg ht]
      by_cases hn : n > (predictableTable quality valid featgen c rows).length
      · rw [if_pos hn]
        exact ⟨⟨fun h => absurd h (by simp), fun h => absurd h hne⟩, fun _ => ⟨_, rfl⟩⟩
      · rw [if_neg hn]
        exact ⟨⟨fun h => absurd h (by simp), fun h => absurd h hne⟩, fun _ => ⟨_, rfl⟩⟩

/-- C5 witness: on the all-odd table the quality query (even values) retains nothing and
the reduction fails with `TooFewEvents` naming the telescope type; on a table with
retained rows it succeeds. -/
theorem too_few_events_iff_empty_witness :
    read_table qual0 valid0 fg0 choice0 "LST_LST_LSTCam" none 2 trainRowsOdd
      = .error (.tooFewEvents
          "No events after quality query for telescope type LST_LST_LSTCam") ∧
    ∃ res, read_table qual0 valid0 fg0 choice0 "LST_LST_LSTCam" none 2 trainRows0
      = .ok res := by
  constructor
  · exact (too_few_events_iff_empty qual0 valid0 fg0 choice0 "LST_LST_LSTCam" none 2
      trainRowsOdd).1.mpr (by decide)
  · exact (too_few_events_iff_empty qual0 valid0 fg0 choice0 "LST_LST_LSTCam" none 2
      trainRows0).2 (by decide)

/-- C7: rows with non-finite feature or target values are dropped with a warning, not an
error, and only in a second pass over the fully concatenated reduced table: whenever any
row survives the quality query, the reduction returns successfully, its table is the
concatenated retained table filtered by the validity predicate, the warning flag is set
exactly when some retained row is invalid, and the per-chunk counters count every
quality-passing row, including the invalid rows dropped by the second pass. -/
theorem invalid_rows_dropped_second_pass {α β : Type} (quality : α → Bool)
    (valid : β → Bool) (featgen : α → β) (choice : Nat → Nat → List Nat)
    (telType : String) (c : Nat) (rows : List α)
    (hne : reducedTable quality featgen c rows ≠ []) :
    read_table quality valid featgen choice telType none c rows = .ok
      { table := (reducedTable quality featgen c rows).filter valid
        n_events_in_file := ((chunkList c rows).map List.length).sum
        n_valid_events_in_file :=
          ((chunkList c rows).map (fun ch => (ch.filter quality).length)).sum
        warned_invalid := !((reducedTable quality featgen c rows).all valid)
        warned_sample := false } := by
  have ht : ¬ (reducedTable quality featgen c rows).length = 0 := by
    intro hh
    exact hne (List.length_eq_zero.mp hh)
  rw [read_table, if_neg ht]
  have hcounts := readLoop_counts quality featgen (chunkList c rows)
  have hpred : predictableTable quality valid featgen c rows
      = (reducedTable quality featgen c rows).filter valid := by
    rw [predictableTable]
    by_cases hall : (reducedTable quality featgen c rows).all valid
    · rw [if_pos hall]
      exact (List.filter_eq_self.mpr (List.all_eq_true.mp hall)).symm
    · rw [if_neg hall]
  rw [hpred, hcounts.1, hcounts.2]

/-- C7 witness: the input `[0, 1, 2, 3, 4, 6]` in chunks of two retains the even rows
`[0, 2, 4, 6]`, counts all four of them as valid in the per-chunk counters, then drops
the non-predictable row `4` in the second pass with the warning flag set, without
aborting. -/
theorem invalid_rows_dropped_second_pass_witness :
    read_table qual0 valid0 fg0 choice0 "MST_MST_FlashCam" none 2 trainRows0 = .ok
      { table := [0, 2, 6], n_events_in_file := 6, n_valid_events_in_file := 4
        warned_invalid := true, warned_sample := false } :=
  invalid_rows_dropped_second_pass qual0 valid0 fg0 choice0 "MST_MST_FlashCam" 2
    trainRows0 (by decide)

/-- C9: when a target sample count `n` is configured, the reduced-and-validated table has
at least `n` rows, and the seeded generator draws `n` distinct in-range indices without
replacement, the sampler sorts the drawn indices before selecting, so the sampled table
has exactly `n` rows appearing in the same relative order as in the reduced table (it is
a sublist of it). -/
theorem sampling_sorted_draw {α β : Type} (quality : α → Bool) (valid : β → Bool)
    (featgen : α → β) (choice : Nat → Nat → List Nat) (telType : String)
    (n c : Nat) (rows : List α)
    (hne : reducedTable quality featgen c rows ≠ [])
    (hn : n ≤ (predictableTable quality valid featgen c rows).length)
    (hnd : (choice (predictableTable quality valid featgen c rows).length n).Nodup)
    (hrange : ∀ i ∈ choice (predictableTable quality valid featgen c rows).length n,
      i < (predictableTable quality valid featgen c rows).length)
    (hlen : (choice (predictableTable quality valid featgen c rows).length n).length = n) :
    ∃ res, read_table quality valid featgen choice telType (some n) c rows = .ok res ∧
      res.table.length = n ∧
      res.table.Sublist (predictableTable quality valid featgen c rows) := by
  have ht : ¬ (reducedTable quality featgen c rows).length = 0 := by
    intro hh
    exact hne (List.length_eq_zero.mp hh)
  have hngt : ¬ n > (predictableTable quality valid featgen c rows).length :=
    Nat.not_lt.mpr hn
  rw [read_table, if_neg ht, if_neg hngt]
  refine ⟨_, rfl, ?_, ?_⟩
  · rw [selectRows_length, List.length_insertionSort, hlen]
    intro i hi
    exact hrange i ((List.perm_insertionSort _ _).mem_iff.mp hi)
  · refine selectRows_sublist _ _ ?_
    have hsorted : List.Sorted (fun a b => a ≤ b)
        (List.insertionSort (fun a b => a ≤ b)
          (choice (predictableTable quality valid featgen c rows).length n)) :=
      List.sorted_insertionSort _ _
    have hnd2 : (List.insertionSort (fun a b => a ≤ b)
        (choice (predictableTable quality valid featgen c rows).length n)).Nodup :=
      (List.perm_insertionSort _ _).symm.nodup hnd
    exact List.Sorted.lt_of_le hsorted hnd2

/-- C9 witness: sampling 2 of the 3 predictable rows `[0, 2, 6]` with the draw `[2, 0]`
sorts the indices and returns the 2-row sample `[0, 6]` in table order. -/
theorem sampling_sorted_draw_witness :
    ∃ res, read_table qual0 valid0 fg0 choice0 "SST_ASTRI_CHEC" (some 2) 2 trainRows0
        = .ok res ∧ res.table.length = 2 ∧
      res.table.Sublist (predictableTable qual0 valid0 fg0 2 trainRows0) :=
  sampling_sorted_draw qual0 valid0 fg0 choice0 "SST_ASTRI_CHEC" 2 2 trainRows0
    (by decide) (by decide) (by decide) (by decide) (by decide)

/-- C8 (amended): for a chunk whose pointing columns are present, whose pointing spread
passes the fixed-pointing check and whose rows are all in the AltAz frame, column
normalization fails with the required-column `ValueError` (the spec's `SchemaError`),
naming the first missing required column, whenever some required column (identity,
truth, or column-to-rename) is absent from the chunk's column set, and succeeds with
the columns renamed to the canonical schema when all required columns are present. -/
theorem normalise_schema_check (cfg : PreCfg) (cols : List String) (rows : List Event)
    (hlat : "subarray_pointing_lat" ∈ cols)
    (hvar : ¬ varianceQ (rows.map Event.pointing_lat) > 1 / 1000000)
    (hframe : "subarray_pointing_frame" ∈ cols)
    (haltaz : ∀ e ∈ rows, e.pointing_frame = altazFrameValue) :
    (∀ c, missingColumn cfg cols = some c →
      c ∈ requiredColumns cfg ∧ c ∉ cols ∧
        normalise_column_names cfg cols rows = .error (.schemaError c)) ∧
    (missingColumn cfg cols = none →
      normalise_column_names cfg cols rows = .ok (cols.map (renameCol cfg), rows)) := by
  have h1 : ¬ (cfg.irf_pre_processing ∧ "subarray_pointing_lat" ∉ cols) :=
    fun hh => hh.2 hlat
  have h2 : ¬ (cfg.irf_pre_processing
      ∧ varianceQ (rows.map Event.pointing_lat) > 1 / 1000000) :=
    fun hh => hvar hh.2
  have h3 : ¬ ("subarray_pointing_frame" ∉ cols) := fun hh => hh hframe
  have h4 : ¬ (rows.any (fun e => e.pointing_frame ≠ altazFrameValue) = true) := by
    rw [List.any_eq_true]
    rintro ⟨e, he, hbad⟩
    rw [decide_eq_true_eq] at hbad
    exact hbad (haltaz e he)
  constructor
  · intro c hc
    refine ⟨List.mem_of_find?_eq_some hc, ?_, ?_⟩
    · have hfind := List.find?_some hc
      rwa [decide_eq_true_eq] at hfind
    · rw [normalise_column_names, if_neg h1, if_neg h2, if_neg h3, if_neg h4, hc]
  · intro hc
    rw [normalise_column_names, if_neg h1, if_neg h2, if_neg h3, if_neg h4, hc]

/-- C8 witness: removing `obs_id` from the column set makes normalization fail with the
required-column error naming `obs_id`; with the full column set it succeeds and renames
to the canonical schema. -/
theorem normalise_schema_check_witness :
    normalise_column_names cfg0 colsNoObsId rowsConst = .error (.schemaError "obs_id") ∧
    normalise_column_names cfg0 cols0 rowsConst
      = .ok (cols0.map (renameCol cfg0), rowsConst) := by
  constructor
  · exact ((normalise_schema_check cfg0 colsNoObsId rowsConst (by decide)
      (by with_unfolding_all decide) (by decide) (by decide)).1 "obs_id" (by decide)).2.2
  · exact (normalise_schema_check cfg0 cols0 rowsConst (by decide)
      (by with_unfolding_all decide) (by decide) (by decide)).2 (by decide)

/-- C8 counterexample: every required column is present in `cols0`, yet normalization of
the varying-pointing chunk `rowsVary` does not succeed: the fixed-pointing check runs
first and aborts with `NotImplementedError`. -/
theorem normalise_varying_pointing_aborts :
    missingColumn cfg0 cols0 = none ∧
    normalise_column_names cfg0 cols0 rowsVary
      = .error (.notImplemented "No support for making irfs from varying pointings yet") := by
  constructor
  · decide
  · with_unfolding_all decide

theorem setWeight_eta (e : Reduced) : setWeight e e.weight = e := rfl

theorem binFoldE_setWeight (tgt : Spectrum) (sim : SimSpectrum) :
    ∀ (pairs : List (ℚ × ℚ)) (e : Reduced), ∃ w, binFoldE tgt sim pairs e = setWeight e w := by
  intro pairs
  induction pairs with
  | nil => intro e; exact ⟨e.weight, (setWeight_eta e).symm⟩
  | cons p ps ih =>
    intro e
    obtain ⟨w, hw⟩ := ih (applyBinPair tgt sim p.1 p.2 e)
    refine ⟨w, ?_⟩
    show binFoldE tgt sim ps (applyBinPair tgt sim p.1 p.2 e) = setWeight e w
    rw [hw, applyBinPair]
    split
    · rfl
    · rfl

theorem binFoldE_offset (tgt : Spectrum) (sim : SimSpectrum) (pairs : List (ℚ × ℚ))
    (e : Reduced) :
    (binFoldE tgt sim pairs e).true_source_fov_offset = e.true_source_fov_offset := by
  obtain ⟨w, hw⟩ := binFoldE_setWeight tgt sim pairs e
  rw [hw]
  rfl

theorem foldl_map_applyBinPair (tgt : Spectrum) (sim : SimSpectrum) :
    ∀ (pairs : List (ℚ × ℚ)) (evs : List Reduced),
      pairs.foldl (fun acc p => acc.map (applyBinPair tgt sim p.1 p.2)) evs
        = evs.map (fun e => binFoldE tgt sim pairs e) := by
  intro pairs
  induction pairs with
  | nil => intro evs; simp [binFoldE]
  | cons p ps ih =>
    intro evs
    show ps.foldl _ (evs.map (applyBinPair tgt sim p.1 p.2)) = _
    rw [ih (evs.map (applyBinPair tgt sim p.1 p.2)), List.map_map]
    rfl

theorem binFoldE_no_match (tgt : Spectrum) (sim : SimSpectrum) :
    ∀ (pairs : List (ℚ × ℚ)) (e : Reduced),
      (∀ p ∈ pairs,
        ¬ (p.1 ≤ e.true_source_fov_offset ∧ e.true_source_fov_offset < p.2)) →
      binFoldE tgt sim pairs e = e := by
  intro pairs
  induction pairs with
  | nil => intro e _; rfl
  | cons p ps ih =>
    intro e h
    show binFoldE tgt sim ps (applyBinPair tgt sim p.1 p.2 e) = e
    rw [applyBinPair, if_neg (h p (List.mem_cons_self p ps))]
    exact ih e (fun q hq => h q (List.mem_cons_of_mem p hq))

theorem binFoldE_match (tgt : Spectrum) (sim : SimSpectrum) :
    ∀ (pairs : List (ℚ × ℚ)) (i : Nat) (lo hi : ℚ) (e : Reduced),
      pairs.get? i = some (lo, hi) →
      (∀ j p, pairs.get? j = some p → j ≠ i →
        ¬ (p.1 ≤ e.true_source_fov_offset ∧ e.true_source_fov_offset < p.2)) →
      lo ≤ e.true_source_fov_offset → e.true_source_fov_offset < hi →
      binFoldE tgt sim pairs e = setWeight e
        (calculate_event_weights tgt (sim.integrate_cone lo hi) e.true_energy) := by
  intro pairs
  induction pairs with
  | nil => intro i lo hi e hget; cases hget
  | cons p ps ih =>
    intro i lo hi e hget hothers h1 h2
    cases i with
    | zero =>
      have hp : p = (lo, hi) := Option.some_inj.mp hget
      subst hp
      show binFoldE tgt sim ps (applyBinPair tgt sim lo hi e) = _
      rw [applyBinPair, if_pos ⟨h1, h2⟩]
      refine binFoldE_no_match tgt sim ps _ ?_
      intro q hq
      obtain ⟨j, hj⟩ := List.mem_iff_get?.mp hq
      have hq2 := hothers (j + 1) q hj (Nat.succ_ne_zero j)
      show ¬ (q.1 ≤ (setWeight e _).true_source_fov_offset
        ∧ (setWeight e _).true_source_fov_offset < q.2)
      exact hq2
    | succ n =>
      have hfirst : ¬ (p.1 ≤ e.true_source_fov_offset
          ∧ e.true_source_fov_offset < p.2) :=
        hothers 0 p rfl (Ne.symm (Nat.succ_ne_zero n))
      show binFoldE tgt sim ps (applyBinPair tgt sim p.1 p.2 e) = _
      rw [applyBinPair, if_neg hfirst]
      refine ih n lo hi e hget ?_ h1 h2
      intro j q hj hne
      exact hothers (j + 1) q hj (fun hh => hne (Nat.succ_injective hh))

theorem consecutivePairs_get? :
    ∀ (bins : List ℚ) (i : Nat),
      (consecutivePairs bins).get? i
        = (bins.get? i).bind (fun lo => (bins.get? (i + 1)).map (fun hi => (lo, hi))) := by
  intro bins
  induction bins with
  | nil => intro i; rfl
  | cons b t ih =>
    intro i
    cases t with
    | nil =>
      cases i with
      | zero => rfl
      | succ n => cases htn : (List.nil : List ℚ).get? n <;> rfl
    | cons b2 t2 =>
      cases i with
      | zero => rfl
      | succ n => exact ih n

theorem sorted_get?_le {bins : List ℚ} (hs : bins.Pairwise (fun a b => a ≤ b))
    {i j : Nat} {x y : ℚ} (hij : i ≤ j) (hx : bins.get? i = some x)
    (hy : bins.get? j = some y) : x ≤ y := by
  rcases Nat.eq_or_lt_of_le hij with heq | hlt
  · subst heq
    rw [hx] at hy
    exact le_of_eq (Option.some_inj.mp hy)
  · obtain ⟨hi, hgi⟩ := List.get?_eq_some.mp hx
    obtain ⟨hj, hgj⟩ := List.get?_eq_some.mp hy
    have := List.pairwise_iff_get.mp hs ⟨i, hi⟩ ⟨j, hj⟩ hlt
    rw [hgi, hgj] at this
    exact this

theorem head_le_of_mem {l : List ℚ} (hs : l.Pairwise (fun a b => a ≤ b))
    (hne : l ≠ []) {x : ℚ} (hx : x ∈ l) : l.head hne ≤ x := by
  cases l with
  | nil => exact absurd rfl hne
  | cons a t =>
    rcases List.mem_cons.mp hx with heq | hmem
    · subst heq; exact le_refl _
    · exact (List.pairwise_cons.mp hs).1 x hmem

theorem mem_le_getLast {l : List ℚ} (hs : l.Pairwise (fun a b => a ≤ b))
    (hne : l ≠ []) {x : ℚ} (hx : x ∈ l) : x ≤ l.getLast hne := by
  induction l with
  | nil => exact absurd rfl hne
  | cons a t ih =>
    cases t with
    | nil =>
      rcases List.mem_cons.mp hx with heq | hmem
      · subst heq; exact le_refl _
      · cases hmem
    | cons b t2 =>
      have hne2 : b :: t2 ≠ [] := List.cons_ne_nil b t2
      rw [List.getLast_cons hne2]
      rcases List.mem_cons.mp hx with heq | hmem
      · subst heq
        exact (List.pairwise_cons.mp hs).1 _ (List.getLast_mem hne2)
      · exact ih (List.pairwise_cons.mp hs).2 hne2 hmem

theorem binFoldE_idem (tgt : Spectrum) (sim : SimSpectrum) :
    ∀ (pairs : List (ℚ × ℚ)) (e : Reduced),
      binFoldE tgt sim pairs (binFoldE tgt sim pairs e) = binFoldE tgt sim pairs e := by
  intro pairs
  induction pairs with
  | nil => intro e; rfl
  | cons p ps ih =>
    intro e
    by_cases hm : p.1 ≤ e.true_source_fov_offset ∧ e.true_source_fov_offset < p.2
    · have hstep : binFoldE tgt sim (p :: ps) e
          = binFoldE tgt sim ps (setWeight e
            (calculate_event_weights tgt (sim.integrate_cone p.1 p.2) e.true_energy)) := by
        show binFoldE tgt sim ps (applyBinPair tgt sim p.1 p.2 e) = _
        rw [applyBinPair, if_pos hm]
      obtain ⟨w, hw⟩ := binFoldE_setWeight tgt sim (p :: ps) e
      have hmw : p.1 ≤ (setWeight e w).true_source_fov_offset
          ∧ (setWeight e w).true_source_fov_offset < p.2 := hm
      rw [hw]
      show binFoldE tgt sim ps (applyBinPair tgt sim p.1 p.2 (setWeight e w)) = setWeight e w
      rw [applyBinPair, if_pos hmw]
      rw [hstep] at hw
      exact hw
    · have hstep : binFoldE tgt sim (p :: ps) e = binFoldE tgt sim ps e := by
        show binFoldE tgt sim ps (applyBinPair tgt sim p.1 p.2 e) = _
        rw [applyBinPair, if_neg hm]
      rw [hstep]
      obtain ⟨w, hw⟩ := binFoldE_setWeight tgt sim ps e
      have hmw : ¬ (p.1 ≤ (setWeight e w).true_source_fov_offset
          ∧ (setWeight e w).true_source_fov_offset < p.2) := hm
      show binFoldE tgt sim ps (applyBinPair tgt sim p.1 p.2 (binFoldE tgt sim ps e))
        = binFoldE tgt sim ps e
      rw [hw, applyBinPair, if_neg hmw, ← hw]
      exact ih e

theorem make_event_weights_some {ldr : Loader} {tgt : Spectrum}
    (htgt : ldr.target_spectrum = some tgt) (events : List Reduced)
    (spectrum : SimSpectrum) (kind : String) (bins : Option (List ℚ)) :
    make_event_weights ldr events spectrum kind bins
      = make_event_weights_with tgt events spectrum kind bins := by
  rw [make_event_weights.eq_def, htgt]

/-- C2 (amended): for the gamma population, when the configured target spectrum is
point-like and the simulated spectrum is diffuse, reweighting with no fov-offset
binning raises the configuration error (a `ValueError` in the source, the spec's
`ConfigurationError`), and with sorted offset bins supplied it sets each in-bin event's
weight to the ratio of the target flux to the simulated spectrum integrated over the
cone of that event's own half-open fov-offset bin, not to one global ratio. -/
theorem pointlike_diffuse_weighting (ldr : Loader) (tgt : Spectrum) (evs : List Reduced)
    (sim : SimSpectrum) (bins : List ℚ) (i k : Nat) (lo hi : ℚ) (e : Reduced)
    (htgt : ldr.target_spectrum = some tgt)
    (hpt : tgt.unit = FluxUnit.pointSource)
    (hdif : sim.spec.unit = FluxUnit.diffuse)
    (hsort : bins.Chain' (fun a b => a ≤ b))
    (hlo : bins.get? i = some lo) (hhi : bins.get? (i + 1) = some hi)
    (he : evs.get? k = some e)
    (h1 : lo ≤ e.true_source_fov_offset) (h2 : e.true_source_fov_offset < hi) :
    make_event_weights ldr evs sim "gammas" none
      = .error (.configurationError fovBinsMsg) ∧
    ∃ out, make_event_weights ldr evs sim "gammas" (some bins) = .ok out ∧
      out.get? k = some (setWeight e
        (calculate_event_weights tgt (sim.integrate_cone lo hi) e.true_energy)) := by
  have hcond : ("gammas" = "gammas" ∧ tgt.unit = FluxUnit.pointSource
      ∧ sim.spec.unit = FluxUnit.diffuse) := ⟨rfl, hpt, hdif⟩
  have hpair : bins.Pairwise (fun a b => a ≤ b) := List.chain'_iff_pairwise.mp hsort
  constructor
  · rw [make_event_weights_some htgt, make_event_weights_with, if_pos hcond]
  · rw [make_event_weights_some htgt, make_event_weights_with, if_pos hcond]
    refine ⟨_, rfl, ?_⟩
    rw [foldl_map_applyBinPair, List.get?_map, he]
    have hpget : (consecutivePairs bins).get? i = some (lo, hi) := by
      rw [consecutivePairs_get?, hlo, hhi]
      rfl
    have houters : ∀ j p, (consecutivePairs bins).get? j = some p → j ≠ i →
        ¬ (p.1 ≤ e.true_source_fov_offset ∧ e.true_source_fov_offset < p.2) := by
      intro j p hj hne
      have hj1 : bins.get? j = some p.1 ∧ bins.get? (j + 1) = some p.2 := by
        rw [consecutivePairs_get?] at hj
        cases hbj : bins.get? j with
        | none => rw [hbj] at hj; cases hj
        | some a =>
          rw [hbj] at hj
          cases hbj2 : bins.get? (j + 1) with
          | none => rw [hbj2] at hj; cases hj
          | some b =>
            rw [hbj2] at hj
            have hp : p = (a, b) := (Option.some_inj.mp hj).symm
            subst hp
            exact ⟨rfl, rfl⟩
      rcases Nat.lt_or_ge j i with hji | hji
      · have hle : p.2 ≤ lo :=
          sorted_get?_le hpair (by omega) hj1.2 hlo
        rintro ⟨hp1, hp2⟩
        exact absurd h1 (not_le.mpr (lt_of_lt_of_le hp2 hle))
      · have hij2 : i + 1 ≤ j := by omega
        have hle : hi ≤ p.1 := sorted_get?_le hpair hij2 hhi hj1.1
        rintro ⟨hp1, hp2⟩
        exact absurd hp1 (not_le.mpr (lt_of_lt_of_le h2 hle))
    show some (binFoldE tgt sim (consecutivePairs bins) e)
      = some (setWeight e
        (calculate_event_weights tgt (sim.integrate_cone lo hi) e.true_energy))
    rw [binFoldE_match tgt sim (consecutivePairs bins) i lo hi e hpget houters h1 h2]

/-- C2 witness: with target `tgtPoint` (point-like), simulated `simDiffuse` (diffuse)
and the event `redEx` whose offset lies in the bin `[0, 1)` of the bin edges
`[0, 1, 2]`, the missing-bins call errors and the binned call assigns the ratio against
the cone integral over that bin. -/
theorem pointlike_diffuse_weighting_witness :
    make_event_weights ldr0 [redEx] simDiffuse "gammas" none
      = .error (.configurationError fovBinsMsg) ∧
    ∃ out, make_event_weights ldr0 [redEx] simDiffuse "gammas" (some [0, 1, 2])
        = .ok out ∧
      out.get? 0 = some (setWeight redEx
        (calculate_event_weights tgtPoint (simDiffuse.integrate_cone 0 1)
          redEx.true_energy)) :=
  pointlike_diffuse_weighting ldr0 tgtPoint [redEx] simDiffuse [0, 1, 2] 0 0 0 1 redEx
    rfl rfl rfl
    (List.chain'_cons.mpr ⟨by with_unfolding_all decide,
      List.chain'_cons.mpr ⟨by with_unfolding_all decide, List.chain'_singleton 2⟩⟩)
    rfl rfl rfl (by with_unfolding_all decide) (by with_unfolding_all decide)

/-- C2 counterexample: for a non-gamma population (`kind = "protons"`) with the same
point-like target and diffuse simulated spectrum and no offset bins, the source does
not raise: it silently applies the single global flux ratio. -/
theorem nongamma_pointlike_diffuse_no_error :
    make_event_weights ldr0 [redEx] simDiffuse "protons" none
      = .ok [setWeight redEx
          (calculate_event_weights tgtPoint simDiffuse.spec redEx.true_energy)] ∧
    make_event_weights ldr0 [redEx] simDiffuse "protons" none
      ≠ .error (.configurationError fovBinsMsg) := by
  constructor
  · rfl
  · intro h
    exact Except.noConfusion h

/-- C3: reweighting is idempotent: if `make_event_weights` succeeds, applying it again
with the same target spectrum, simulated spectrum, population kind and offset bins
maps the already-weighted table to itself, because every weight is recomputed from the
unchanged true-energy and fov-offset columns, never from the previous weight. -/
theorem reweighting_idempotent (ldr : Loader) (evs out : List Reduced)
    (sim : SimSpectrum) (kind : String) (bins : Option (List ℚ))
    (h : make_event_weights ldr evs sim kind bins = .ok out) :
    make_event_weights ldr out sim kind bins = .ok out := by
  cases htgt : ldr.target_spectrum with
  | none =>
    rw [make_event_weights.eq_def, htgt] at h
    exact Except.noConfusion h
  | some tgt =>
    rw [make_event_weights_some htgt] at h ⊢
    rw [make_event_weights_with.eq_def] at h ⊢
    by_cases hcond : (kind = "gammas" ∧ tgt.unit = FluxUnit.pointSource
        ∧ sim.spec.unit = FluxUnit.diffuse)
    · rw [if_pos hcond] at h ⊢
      cases bins with
      | none => exact Except.noConfusion h
      | some bs =>
        replace h : Except.ok ((consecutivePairs bs).foldl
            (fun evs p => evs.map (applyBinPair tgt sim p.1 p.2)) evs)
            = Except.ok out := h
        show Except.ok ((consecutivePairs bs).foldl
            (fun evs p => evs.map (applyBinPair tgt sim p.1 p.2)) out)
          = Except.ok out
        have hout : out = evs.map (fun e => binFoldE tgt sim (consecutivePairs bs) e) := by
          have h2 := Except.ok.inj h
          rw [← h2, foldl_map_applyBinPair]
        rw [foldl_map_applyBinPair, hout, List.map_map]
        have hcomp : evs.map ((fun e => binFoldE tgt sim (consecutivePairs bs) e)
            ∘ (fun e => binFoldE tgt sim (consecutivePairs bs) e))
            = evs.map (fun e => binFoldE tgt sim (consecutivePairs bs) e) :=
          List.map_congr_left (fun a _ => binFoldE_idem tgt sim (consecutivePairs bs) a)
        rw [hcomp]
    · rw [if_neg hcond] at h ⊢
      have hout : out = evs.map (fun e =>
          setWeight e (calculate_event_weights tgt sim.spec e.true_energy)) :=
        (Except.ok.inj h).symm
      rw [hout, List.map_map]
      have hcomp : evs.map ((fun e =>
            setWeight e (calculate_event_weights tgt sim.spec e.true_energy))
          ∘ (fun e => setWeight e (calculate_event_weights tgt sim.spec e.true_energy)))
          = evs.map (fun e =>
            setWeight e (calculate_event_weights tgt sim.spec e.true_energy)) :=
        List.map_congr_left (fun a _ => rfl)
      rw [hcomp]

/-- C3 witness: reapplying the global-ratio weighting to the already-weighted
single-event table reproduces it exactly. -/
theorem reweighting_idempotent_witness :
    make_event_weights ldr0
        [setWeight redEx (calculate_event_weights tgtPoint simDiffuse.spec
          redEx.true_energy)] simDiffuse "protons" none
      = .ok [setWeight redEx (calculate_event_weights tgtPoint simDiffuse.spec
          redEx.true_energy)] :=
  reweighting_idempotent ldr0 [redEx]
    [setWeight redEx (calculate_event_weights tgtPoint simDiffuse.spec
      redEx.true_energy)] simDiffuse "protons" none rfl

/-- C10: the fov-offset bin masks are half-open (`offset >= low AND offset < high`), so
an event whose true fov offset equals the last bin edge exactly, or lies outside
`[first edge, last edge)`, is matched by no bin of the sorted binning and keeps its
previous weight, which is the placeholder `1.0` that `make_derived_columns` assigns
(shown by the first conjunct). -/
theorem halfopen_bins_keep_placeholder (ext : Externals) (ev0 : Event) (ldr : Loader)
    (tgt : Spectrum) (evs : List Reduced) (sim : SimSpectrum) (bins : List ℚ)
    (k : Nat) (e : Reduced)
    (htgt : ldr.target_spectrum = some tgt)
    (hpt : tgt.unit = FluxUnit.pointSource)
    (hdif : sim.spec.unit = FluxUnit.diffuse)
    (hsort : bins.Chain' (fun a b => a ≤ b))
    (hne : bins ≠ [])
    (he : evs.get? k = some e)
    (hout : e.true_source_fov_offset < bins.head hne
      ∨ bins.getLast hne ≤ e.true_source_fov_offset) :
    (keep_nescessary_columns_only (make_derived_columns ext ev0)).weight = 1 ∧
    ∃ out, make_event_weights ldr evs sim "gammas" (some bins) = .ok out ∧
      out.get? k = some e := by
  have hcond : ("gammas" = "gammas" ∧ tgt.unit = FluxUnit.pointSource
      ∧ sim.spec.unit = FluxUnit.diffuse) := ⟨rfl, hpt, hdif⟩
  have hpair : bins.Pairwise (fun a b => a ≤ b) := List.chain'_iff_pairwise.mp hsort
  refine ⟨rfl, ?_⟩
  rw [make_event_weights_some htgt, make_event_weights_with, if_pos hcond]
  refine ⟨_, rfl, ?_⟩
  rw [foldl_map_applyBinPair, List.get?_map, he]
  have hnomatch : ∀ p ∈ consecutivePairs bins,
      ¬ (p.1 ≤ e.true_source_fov_offset ∧ e.true_source_fov_offset < p.2) := by
    intro p hp
    have hmem := List.of_mem_zip hp
    have hp1 : p.1 ∈ bins := hmem.1
    have hp2 : p.2 ∈ bins := List.mem_of_mem_tail hmem.2
    rintro ⟨hle, hlt⟩
    rcases hout with hlo | hhi
    · exact absurd (le_trans (head_le_of_mem hpair hne hp1) hle)
        (not_le.mpr hlo)
    · exact absurd (lt_of_lt_of_le hlt (mem_le_getLast hpair hne hp2))
        (not_lt.mpr hhi)
  show some (binFoldE tgt sim (consecutivePairs bins) e) = some e
  rw [binFoldE_no_match tgt sim (consecutivePairs bins) e hnomatch]

/-- C10 witness: with bin edges `[0, 1, 2]`, the event `redEdge` sits exactly on the
last edge; reweighting returns it unchanged, and the derived-column computation is the
step that put the placeholder `1` into its weight column. -/
theorem halfopen_bins_keep_placeholder_witness :
    (keep_nescessary_columns_only (make_derived_columns ext0 evA)).weight = 1 ∧
    ∃ out, make_event_weights ldr0 [redEdge] simDiffuse "gammas" (some [0, 1, 2])
        = .ok out ∧ out.get? 0 = some redEdge :=
  halfopen_bins_keep_placeholder ext0 evA ldr0 tgtPoint [redEdge] simDiffuse [0, 1, 2]
    0 redEdge rfl rfl rfl
    (List.chain'_cons.mpr ⟨by with_unfolding_all decide,
      List.chain'_cons.mpr ⟨by with_unfolding_all decide, List.chain'_singleton 2⟩⟩)
    (by decide) rfl (Or.inr (by with_unfolding_all decide))

theorem get?_zipL {α β : Type} :
    ∀ (l1 : List α) (l2 : List β) (i : Nat),
      (l1.zip l2).get? i
        = (l1.get? i).bind (fun a => (l2.get? i).map (fun b => (a, b))) := by
  intro l1
  induction l1 with
  | nil => intro l2 i; rfl
  | cons a t ih =>
    intro l2 i
    cases l2 with
    | nil =>
      cases i with
      | zero => rfl
      | succ n =>
        show (none : Option (α × β))
          = (t.get? n).bind fun a => Option.map (fun b => (a, b)) (none : Option β)
        cases t.get? n <;> rfl
    | cons b t2 =>
      cases i with
      | zero => rfl
      | succ n => exact ih t2 n

theorem get?_zipWith_and :
    ∀ (l1 l2 : List Bool) (i : Nat),
      (List.zipWith (fun a b => a && b) l1 l2).get? i
        = (l1.get? i).bind (fun a => (l2.get? i).map (fun b => a && b)) := by
  intro l1
  induction l1 with
  | nil => intro l2 i; rfl
  | cons a t ih =>
    intro l2 i
    cases l2 with
    | nil =>
      cases i with
      | zero => rfl
      | succ n =>
        show (none : Option Bool)
          = (t.get? n).bind fun a => Option.map (fun b => a && b) (none : Option Bool)
        cases t.get? n <;> rfl
    | cons b t2 =>
      cases i with
      | zero => rfl
      | succ n => exact ih t2 n

theorem evaluate_binned_cut_get? (values energies : List ℚ) (cuts : List CutBin)
    (op : ℚ → ℚ → Bool) (i : Nat) (v E : ℚ)
    (hv : values.get? i = some v) (hE : energies.get? i = some E) :
    (evaluate_binned_cut values energies cuts op).get? i
      = some (binned_cut_row cuts op v E) := by
  rw [evaluate_binned_cut, List.get?_map, get?_zipL, hv, hE]
  rfl

/-- C4: per event, the combined `selected` flag equals the classifier-cut flag alone in
full-enclosure mode (and the theta column is left untouched), and equals the logical
AND of the theta-cut flag and the classifier-cut flag in point-like mode, where both
flags are materialized as independent full-table masks computed row by row from the
binned cuts (never short-circuited away). -/
theorem combined_selection_flags (fe : Bool) (ghc thc : List CutBin) (t : SelTable)
    (i : Nat) (g E th : ℚ)
    (hg : t.gh_score.get? i = some g) (hE : t.reco_energy.get? i = some E)
    (hth : t.theta.get? i = some th) :
    ((calculate_selections fe ghc thc t).selected_gh.get? i
      = some (binned_cut_row ghc geOp g E)) ∧
    (fe = true →
      (calculate_selections fe ghc thc t).selected
          = (calculate_selections fe ghc thc t).selected_gh ∧
      (calculate_selections fe ghc thc t).selected_theta = t.selected_theta) ∧
    (fe = false →
      (calculate_selections fe ghc thc t).selected_theta.get? i
          = some (binned_cut_row thc leOp th E) ∧
      (calculate_selections fe ghc thc t).selected.get? i
          = some (binned_cut_row thc leOp th E && binned_cut_row ghc geOp g E)) := by
  cases fe with
  | true =>
    rw [calculate_selections, if_neg (by simp)]
    refine ⟨?_, fun _ => ⟨rfl, rfl⟩, fun h => Bool.noConfusion h⟩
    exact evaluate_binned_cut_get? t.gh_score t.reco_energy ghc geOp i g E hg hE
  | false =>
    rw [calculate_selections, if_pos (by simp)]
    refine ⟨?_, fun h => Bool.noConfusion h, fun _ => ⟨?_, ?_⟩⟩
    · exact evaluate_binned_cut_get? t.gh_score t.reco_energy ghc geOp i g E hg hE
    · exact evaluate_binned_cut_get? t.theta t.reco_energy thc leOp i th E hth hE
    · show (List.zipWith (fun a b => a && b)
          (evaluate_binned_cut t.theta t.reco_energy thc leOp)
          (evaluate_binned_cut t.gh_score t.reco_energy ghc geOp)).get? i = _
      rw [get?_zipWith_and,
        evaluate_binned_cut_get? t.theta t.reco_energy thc leOp i th E hth hE,
        evaluate_binned_cut_get? t.gh_score t.reco_energy ghc geOp i g E hg hE]
      rfl

/-- C4 witness: the two-row table `selT0` in point-like mode: both sub-cut masks are
materialized for row 0 and the combined flag is their AND. -/
theorem combined_selection_flags_witness :
    ((calculate_selections false ghCuts0 thetaCuts0 selT0).selected_gh.get? 0
      = some (binned_cut_row ghCuts0 geOp (3/4) 1)) ∧
    (false = true →
      (calculate_selections false ghCuts0 thetaCuts0 selT0).selected
          = (calculate_selections false ghCuts0 thetaCuts0 selT0).selected_gh ∧
      (calculate_selections false ghCuts0 thetaCuts0 selT0).selected_theta
          = selT0.selected_theta) ∧
    (false = false →
      (calculate_selections false ghCuts0 thetaCuts0 selT0).selected_theta.get? 0
          = some (binned_cut_row thetaCuts0 leOp (1/10) 1) ∧
      (calculate_selections false ghCuts0 thetaCuts0 selT0).selected.get? 0
          = some (binned_cut_row thetaCuts0 leOp (1/10) 1
            && binned_cut_row ghCuts0 geOp (3/4) 1)) :=
  combined_selection_flags false ghCuts0 thetaCuts0 selT0 0 (3/4) 1 (1/10) rfl rfl rfl
